import Mathlib

/-!
Verification of the Grounded backend (Issmuth/grounded-backend) against its
natural-language specification.

The development shallowly embeds the parts of the TypeScript source that the
claims touch:

* `src/src/models/User.ts` — `UserModel.adjustStreakAfterDate` (the Streak
  Recalculator).  Calendar dates are modelled as day numbers (`Nat`); walking
  one day back from day `d` reaches day `d - 1`, and no tasks exist before
  day 0, which is what terminates the backward walk of the source's
  `while (true)` loop.  A user's task rows for a given day are modelled by the
  completion flags of the non-deleted tasks on that day
  (`tasks : Nat → List Bool`), which is exactly what
  `TaskModel.findByUserIdAndDateRange(uid, d, d)` feeds the routine.
* `src/src/models/Task.ts` — `TaskModel.create` (date/time normalisation and
  defaulting), `TaskModel.update` (subtask replacement), `TaskModel.delete`,
  `TaskModel.createSubtask`.
* `src/unnamed/part_008` — `ChatSessionModel` (session create/update with the
  single-active-session rule, message storage).
* `src/src/controllers/aiController.ts` — the agentic chat loop (`chat`) and
  the confirmed-action executor (`confirmAction`).
* `src/unnamed/part_005` — the chat controller's `confirmAction` resolution
  endpoint (the version with the ownership check).
-/

namespace Grounded

/-! ## Streak Recalculator (`UserModel.adjustStreakAfterDate`, User.ts 110-226)

The user's streak columns: `current_streak`, `longest_streak`,
`last_streak_date`.  The source reads them with `|| 0` null-coalescing, so
plain `Nat` counters are faithful; `last_streak_date` is a nullable date.
-/

structure StreakState where
  current_streak : Nat
  longest_streak : Nat
  last_streak_date : Option Nat
  deriving DecidableEq, Repr

/-- A day counts toward the streak walk when it has at least one task and
every task on it is completed (`dayTasks.length !== 0 && dayTasks.every(x => x.is_completed)`). -/
def dayComplete (tasks : Nat → List Bool) (d : Nat) : Bool :=
  !(tasks d).isEmpty && (tasks d).all (fun b => b)

/-- The backward walk of User.ts 178-194, started at cursor day `c`:
count consecutive fully-complete days going down, stopping at the first day
with zero tasks or an incomplete task.  Below day 0 there are no tasks, so the
walk stops there at the latest. -/
def countBack (tasks : Nat → List Bool) : Nat → Nat
  | 0 => if dayComplete tasks 0 then 1 else 0
  | n + 1 => if dayComplete tasks (n + 1) then countBack tasks n + 1 else 0

/-- The count computed for a regression at day `d`: the cursor starts at the
day before `d` (User.ts 179-180); for `d = 0` the cursor is already before
day 0 and the loop breaks immediately with count 0. -/
def walkCount (tasks : Nat → List Bool) (d : Nat) : Nat :=
  match d with
  | 0 => 0
  | n + 1 => countBack tasks n

/-- `user.last_streak_date === yesterdayStr` of User.ts 146-149: for `d = 0`
"yesterday" is before day 0 and can never equal a stored date. -/
def prevDayCounted (u : StreakState) (d : Nat) : Bool :=
  match d with
  | 0 => false
  | n + 1 => u.last_streak_date = some n

/-- `UserModel.adjustStreakAfterDate` (User.ts 110-226), given the user's
per-day completion flags, the user's current streak row and the changed date. -/
def adjustStreakAfterDate (tasks : Nat → List Bool) (u : StreakState) (d : Nat) :
    StreakState :=
  if (tasks d).isEmpty then u
  else if (tasks d).all (fun b => b) then
    if u.last_streak_date = some d then u
    else
      let newCurrent := if prevDayCounted u d then u.current_streak + 1 else 1
      { current_streak := newCurrent
        longest_streak := max u.longest_streak newCurrent
        last_streak_date := some d }
  else
    if u.last_streak_date ≠ some d then u
    else
      let count := walkCount tasks d
      { current_streak := count
        longest_streak := max u.longest_streak count
        last_streak_date := if count = 0 then none else some (d - 1) }

/-- The 3-day-streak scenario of C1: days 1 and 3 fully complete, day 2's sole
task has been marked incomplete. -/
def tasksMiddleRegressed : Nat → List Bool := fun d =>
  if d = 1 then [true] else if d = 2 then [false] else if d = 3 then [true] else []

/-- C1 amended-theorem witness data: day 1 fully complete, day 2's sole task
marked incomplete, and day 2 is the last-counted date. -/
def tasksLastRegressed : Nat → List Bool := fun d =>
  if d = 1 then [true] else if d = 2 then [false] else []

/-! ## Task model: date/time normalisation (`TaskModel.create`, Task.ts 31-152)

Times of day are `HH:MM:SS` triples; the stored string compares
lexicographically exactly as the triple compares numerically (zero-padded
two-digit fields), captured by `Hms.toSec`.  A raw string input is modelled by
the shape the source's regexes distinguish: an ISO datetime (which JS `Date`
decomposes into a local date and time), a date-only string, a `HH:MM(:SS)`
time, or a string none of the regexes nor the database can interpret. -/

structure Hms where
  hh : Nat
  mm : Nat
  ss : Nat
  deriving DecidableEq, Repr

def Hms.toSec (t : Hms) : Nat := t.hh * 3600 + t.mm * 60 + t.ss

/-- A time value the database accepts for a `time` column. -/
def Hms.validTime (t : Hms) : Bool := t.hh < 24 && t.mm < 60 && t.ss < 60

inductive RawVal where
  | isoDT (date : Nat) (time : Hms)
  | dateOnly (date : Nat)
  | timeOnly (time : Hms)
  | unparsed
  deriving DecidableEq, Repr

/-- The date component `extractDateTime` finds (Task.ts 47-78). -/
def extractDate : RawVal → Option Nat
  | .isoDT d _ => some d
  | .dateOnly d => some d
  | _ => none

/-- The time component `extractDateTime` finds (Task.ts 47-78).  The regex
`^\d{1,2}:\d{2}(:\d{2})?$` admits out-of-range fields (e.g. minutes up to 99),
so `timeOnly` carries an arbitrary triple; ISO parsing always produces an
in-range local time. -/
def extractTime : RawVal → Option Hms
  | .isoDT _ t => some t
  | .timeOnly t => some t
  | _ => none

/-- JS `Date.setHours(h, m, s, 0)` component normalisation: seconds and
minutes carry into the next unit, hours wrap modulo 24 (the date part is
discarded when the result is re-formatted as `HH:MM:SS`). -/
def normHms (t : Hms) : Hms :=
  let m := t.mm + t.ss / 60
  { hh := (t.hh + m / 60) % 24, mm := m % 60, ss := t.ss % 60 }

/-- `dt.setHours(dt.getHours() + 1)` on `toDate(start)`, re-formatted
(Task.ts 112-120): the derived default end time. -/
def plusOneHour (t : Hms) : Hms :=
  let n := normHms t
  { hh := (n.hh + 1) % 24, mm := n.mm, ss := n.ss }

/-- `dt.setHours(dt.getHours() - 1)` on `toDate(end)`, re-formatted
(Task.ts 101-110): the derived default start time. -/
def minusOneHour (t : Hms) : Hms :=
  let n := normHms t
  { hh := (n.hh + 23) % 24, mm := n.mm, ss := n.ss }

/-- The string value held by `start_time_raw` / `end_time_raw` after the
extraction phase: a normalised `HH:MM:SS` string, the `NaN:NaN:NaN` string
`toDate` produces from a non-time string, or the original string untouched. -/
inductive TimeStr where
  | hms (t : Hms)
  | nanStr
  | raw (v : RawVal)
  deriving DecidableEq, Repr

/-- Applying the `toDate`-based one-hour shift to whatever string is on the
other side: shifting a non-time string yields `NaN:NaN:NaN` (JS `setHours`
with `NaN` silently produces an invalid date; the `try/catch` never fires). -/
def shiftOrNan (f : Hms → Hms) : TimeStr → TimeStr
  | .hms t => .hms (f t)
  | _ => .nanStr

/-- A `TimeStr` as the database sees it on INSERT into a `time NOT NULL`
column: only an in-range `HH:MM:SS` value is accepted. -/
def TimeStr.toDb : TimeStr → Option Hms
  | .hms t => if t.validTime then some t else none
  | _ => none

structure CreateTimesInput where
  start_time : Option RawVal := none
  end_time : Option RawVal := none
  date : Option Nat := none
  deriving DecidableEq, Repr

/-- The sanitisation pipeline of `TaskModel.create` (Task.ts 34-130) for the
`start_time`, `end_time` and `date` columns.  (JS falsiness makes the empty
string behave exactly like an absent field throughout, so `Option` is
faithful.)  Phase 1 pulls dates/times out of the raw values (a date found in
`start_time` wins over one found in `end_time`); phase 2 derives the missing
side of a one-sided input at a one-hour offset, or uses the fixed
09:00:00-10:00:00 window when neither side is present; the date column
defaults to today. -/
def normalizeTimes (today : Nat) (inp : CreateTimesInput) :
    TimeStr × TimeStr × Nat :=
  let s0 : Option TimeStr := inp.start_time.map (fun v =>
    match extractTime v with
    | some t => .hms t
    | none => .raw v)
  let d1 : Option Nat := match inp.start_time with
    | some v =>
      match extractDate v, inp.date with
      | some dd, none => some dd
      | _, _ => inp.date
    | none => inp.date
  let e0 : Option TimeStr := inp.end_time.map (fun v =>
    match extractTime v with
    | some t => .hms t
    | none => .raw v)
  let d2 : Option Nat := match inp.end_time with
    | some v =>
      match extractDate v, d1 with
      | some dd, none => some dd
      | _, _ => d1
    | none => d1
  match s0, e0 with
  | none, some e => (shiftOrNan minusOneHour e, e, d2.getD today)
  | some s, none => (s, shiftOrNan plusOneHour s, d2.getD today)
  | none, none => (.hms ⟨9, 0, 0⟩, .hms ⟨10, 0, 0⟩, d2.getD today)
  | some s, some e => (s, e, d2.getD today)

/-- The time/date columns actually stored by `TaskModel.create`'s INSERT:
`none` when the database rejects the computed value for a `time` column. -/
structure StoredTimes where
  start_time : Hms
  end_time : Hms
  date : Nat
  deriving DecidableEq, Repr

def createTimes (today : Nat) (inp : CreateTimesInput) : Option StoredTimes :=
  match (normalizeTimes today inp).1.toDb, (normalizeTimes today inp).2.1.toDb with
  | some ts, some te => some ⟨ts, te, (normalizeTimes today inp).2.2⟩
  | _, _ => none

/-! ## Task store (`TaskModel`, Task.ts 30-356)

Rows are kept in insertion order, keyed by generated ids.  The `tags` and
`recurrence` JSON columns are opaque pass-through payloads no claim mentions,
so they are elided.  Reads (`findById` etc.) exclude soft-deleted rows and
return subtasks ordered by `order_index`; the model keeps the stored subtask
rows in insertion order. -/

structure Subtask where
  title : Option String
  is_completed : Bool
  order_index : Int
  deriving DecidableEq, Repr

structure SubtaskInput where
  title : Option String := none
  is_completed : Option Bool := none
  order_index : Option Int := none
  deriving DecidableEq, Repr

/-- `TaskModel.createSubtask` row defaulting (Task.ts 252-269): missing title
becomes NULL, completion defaults to false, order index to 0. -/
def normalizeSubtask (s : SubtaskInput) : Subtask :=
  { title := s.title
    is_completed := s.is_completed.getD false
    order_index := s.order_index.getD 0 }

structure TaskRec where
  user_id : Nat
  title : Option String
  description : Option String
  start_time : Hms
  end_time : Hms
  date : Nat
  is_completed : Bool
  is_deleted : Bool
  subtasks : List Subtask
  deriving DecidableEq, Repr

structure TaskStore where
  rows : List (Nat × TaskRec)
  nextId : Nat
  deriving DecidableEq, Repr

def TaskStore.find? (st : TaskStore) (id : Nat) : Option TaskRec :=
  (st.rows.find? (fun r => r.1 = id)).map (fun r => r.2)

structure CreateTaskInput where
  user_id : Nat
  title : Option String := none
  description : Option String := none
  start_time : Option RawVal := none
  end_time : Option RawVal := none
  date : Option Nat := none
  is_completed : Option Bool := none
  is_deleted : Option Bool := none
  subtasks : List SubtaskInput := []
  deriving DecidableEq, Repr

/-- `TaskModel.create` (Task.ts 31-152): sanitise the date/time columns,
INSERT the row (a rejected column value is a thrown database error, `none`
here), then insert the provided subtask rows.  Returns the store and the new
row's id. -/
def TaskModel.create (today : Nat) (st : TaskStore) (inp : CreateTaskInput) :
    Option (TaskStore × Nat) :=
  match createTimes today ⟨inp.start_time, inp.end_time, inp.date⟩ with
  | none => none
  | some times =>
    let row : TaskRec :=
      { user_id := inp.user_id
        title := inp.title
        description := inp.description
        start_time := times.start_time
        end_time := times.end_time
        date := times.date
        is_completed := inp.is_completed.getD false
        is_deleted := inp.is_deleted.getD false
        subtasks := inp.subtasks.map normalizeSubtask }
    some ({ rows := st.rows ++ [(st.nextId, row)], nextId := st.nextId + 1 }, st.nextId)

/-- Payload of `TaskModel.update` (Task.ts 206-242).  `id`, `user_id`,
`created_at` and `subtasks` are stripped from the column update; the payload's
time columns are passed verbatim to SQL and no claim constrains them, so they
are elided here. -/
structure TaskUpdate where
  title : Option String := none
  description : Option String := none
  date : Option Nat := none
  is_completed : Option Bool := none
  is_deleted : Option Bool := none
  subtasks : Option (List SubtaskInput) := none
  deriving DecidableEq, Repr

/-- The row-level effect of `TaskModel.update`: set the provided scalar
columns; when a `subtasks` list is provided (any list, the empty one
included — `if (updates.subtasks)` is a JS truthiness check and `[]` is
truthy), DELETE all existing subtasks of the task and re-create exactly the
provided list. -/
def applyUpd (t : TaskRec) (upd : TaskUpdate) : TaskRec :=
  { t with
    title := match upd.title with
      | some x => some x
      | none => t.title
    description := match upd.description with
      | some x => some x
      | none => t.description
    date := upd.date.getD t.date
    is_completed := upd.is_completed.getD t.is_completed
    is_deleted := upd.is_deleted.getD t.is_deleted
    subtasks := match upd.subtasks with
      | some l => l.map normalizeSubtask
      | none => t.subtasks }

/-- `TaskModel.update` (Task.ts 206-242); an absent id updates nothing. -/
def TaskModel.update (st : TaskStore) (id : Nat) (upd : TaskUpdate) : TaskStore :=
  { st with rows := st.rows.map (fun r => if r.1 = id then (r.1, applyUpd r.2 upd) else r) }

/-- `TaskModel.delete` (Task.ts 244-249): soft delete. -/
def TaskModel.softDelete (st : TaskStore) (id : Nat) : TaskStore :=
  { st with rows := st.rows.map (fun r =>
      if r.1 = id then (r.1, { r.2 with is_deleted := true }) else r) }

/-- `TaskModel.createSubtask` (Task.ts 252-269) against the store. -/
def TaskModel.createSubtask (st : TaskStore) (taskId : Nat) (sub : SubtaskInput) : TaskStore :=
  { st with rows := st.rows.map (fun r =>
      if r.1 = taskId then (r.1, { r.2 with subtasks := r.2.subtasks ++ [normalizeSubtask sub] }) else r) }

/-! ## Chat sessions (`ChatSessionModel`, part_008 13-358) -/

structure ChatSession where
  id : Nat
  user_id : Nat
  title : String
  is_active : Bool
  deriving DecidableEq, Repr

structure SessionStore where
  sessions : List ChatSession
  nextId : Nat
  deriving DecidableEq, Repr

/-- Row effect of `UPDATE chat_sessions SET is_active = false WHERE
user_id = $1` (part_008 103-106 and 150-153). -/
def deactRow (userId : Nat) (s : ChatSession) : ChatSession :=
  if s.user_id = userId then { s with is_active := false } else s

def deactivateAll (st : SessionStore) (userId : Nat) : SessionStore :=
  { st with sessions := st.sessions.map (deactRow userId) }

/-- The freshly inserted row of `ChatSessionModel.create`
(part_008 109-114): active, with `title || "New Chat"`. -/
def newSession (nid userId : Nat) (title : Option String) : ChatSession :=
  { id := nid, user_id := userId, title := title.getD "New Chat", is_active := true }

/-- `ChatSessionModel.create` (part_008 100-122): deactivate every other
session of the user, then insert a fresh active one. -/
def ChatSessionModel.create (st : SessionStore) (userId : Nat) (title : Option String) :
    SessionStore × Nat :=
  let st1 := deactivateAll st userId
  ({ sessions := st1.sessions ++ [newSession st1.nextId userId title]
     nextId := st1.nextId + 1 }, st1.nextId)

structure SessionUpdate where
  title : Option String := none
  is_active : Option Bool := none
  deriving DecidableEq, Repr

/-- `ChatSessionModel.findById` (part_008 31-45). -/
def ChatSessionModel.findSession (st : SessionStore) (id : Nat) : Option ChatSession :=
  st.sessions.find? (fun s => s.id = id)

/-- Row effect of `UPDATE chat_sessions SET <fields> WHERE id = $n`
(part_008 165-171). -/
def setRow (id : Nat) (upd : SessionUpdate) (s : ChatSession) : ChatSession :=
  if s.id = id then
    { s with title := upd.title.getD s.title, is_active := upd.is_active.getD s.is_active }
  else s

/-- `ChatSessionModel.update` (part_008 125-183): when activating, first look
up the target's owner and deactivate all of that user's sessions, then set the
provided fields on the target row.  A missing id makes the UPDATE match no row
and throw, leaving the store unchanged.  (`deactivateAll` does not touch the
id counter, so only the session rows change.) -/
def ChatSessionModel.update (st : SessionStore) (id : Nat) (upd : SessionUpdate) : SessionStore :=
  match ChatSessionModel.findSession st id with
  | none => st
  | some target =>
    if upd.is_active = some true then
      { st with sessions := ((deactivateAll st target.user_id).sessions).map (setRow id upd) }
    else
      { st with sessions := st.sessions.map (setRow id upd) }

inductive SessionOp where
  | create (userId : Nat) (title : Option String)
  | update (id : Nat) (upd : SessionUpdate)
  deriving Repr

def applySessionOp (st : SessionStore) : SessionOp → SessionStore
  | .create u t => (ChatSessionModel.create st u t).1
  | .update id upd => ChatSessionModel.update st id upd

def runSessionOps (st : SessionStore) (ops : List SessionOp) : SessionStore :=
  ops.foldl applySessionOp st

/-- How many of the user's sessions are flagged active. -/
def countActive (l : List ChatSession) (u : Nat) : Nat :=
  (l.filter (fun s => s.user_id = u && s.is_active)).length

def emptySessions : SessionStore := ⟨[], 0⟩

/-! ## Agent loop (`chat`, aiController.ts 263-454)

The hosted model is an oracle: `respond i` is its response in iteration `i`,
so quantifying over `respond` quantifies over every possible sequence of model
responses.  Tool arguments are opaque payloads (`Nat`): the loop only parses
and forwards them. -/

inductive ToolCall where
  | get_tasks (args : Nat)
  | propose_action (args : Nat)
  | unknownTool (nm : String) (args : Nat)
  deriving DecidableEq, Repr

inductive ToolResult where
  | searched (args : Nat)
  | proposed (args : Nat)
  | unknownFn (nm : String)
  deriving DecidableEq, Repr

/-- Dispatch of one tool call (aiController.ts 336-346): `get_tasks` runs the
read-only executor, `propose_action` is the pass-through envelope, an unknown
name becomes a structured error result. -/
def execTool : ToolCall → ToolResult
  | .get_tasks a => .searched a
  | .propose_action a => .proposed a
  | .unknownTool n _ => .unknownFn n

structure RoundOut where
  results : List ToolResult
  proposal : Option Nat
  deriving DecidableEq, Repr

/-- `proposal = functionArgs` (aiController.ts 341): a `propose_action` call
overwrites the captured proposal, any other call leaves it. -/
def updateProposal (p : Option Nat) : ToolCall → Option Nat
  | .propose_action a => some a
  | _ => p

/-- The per-round tool loop (aiController.ts 328-361): EVERY call in the round
is executed in order and its result appended to the conversation; each
`propose_action` overwrites the `proposal` variable with its arguments. -/
def processRoundAux (acc : RoundOut) : List ToolCall → RoundOut
  | [] => acc
  | c :: rest =>
    processRoundAux ⟨acc.results ++ [execTool c], updateProposal acc.proposal c⟩ rest

def processRound (calls : List ToolCall) : RoundOut :=
  processRoundAux ⟨[], none⟩ calls

structure ModelResponse where
  content : Option String
  tool_calls : List ToolCall
  deriving Repr

inductive ChatOutcome where
  | answered (text : String)
  | confirmation (proposal : Nat)
  | maxIterations (text : String) (error : String)
  deriving DecidableEq, Repr

def MAX_ITERATIONS : Nat := 10

def fallbackText : String :=
  "I'm having trouble processing this request. Please try rephrasing it."

def defaultAnswer : String := "I've processed your request."

/-- One iteration (aiController.ts 296-438): no tool calls means the text
answer is returned (with the generic fallback for empty content); otherwise
the round is processed and a captured proposal ends the loop with a
confirmation request; `none` means loop again. -/
def chatStep (resp : ModelResponse) : Option ChatOutcome :=
  if resp.tool_calls.isEmpty then
    some (.answered (resp.content.getD defaultAnswer))
  else
    match (processRound resp.tool_calls).proposal with
    | some p => some (.confirmation p)
    | none => none

/-- The bounded agentic loop (aiController.ts 292-447), returning the outcome
and the number of model calls made.  Exhausting `MAX_ITERATIONS` yields the
fixed fallback message flagged `"max_iterations"`. -/
def chatLoopAux (respond : Nat → ModelResponse) (iter : Nat) : Nat → ChatOutcome × Nat
  | 0 => (.maxIterations fallbackText "max_iterations", iter)
  | r + 1 =>
    match chatStep (respond iter) with
    | some outcome => (outcome, iter + 1)
    | none => chatLoopAux respond (iter + 1) r

def chat (respond : Nat → ModelResponse) : ChatOutcome × Nat :=
  chatLoopAux respond 0 MAX_ITERATIONS

/-! ## Confirmation resolution (`confirmAction`, part_005 457-601, executing
via `confirmAction` of aiController.ts 457-509)

The chat message and stored-confirmation records; the `confirmation` column
holds the action name, the data payload and the confirmed/cancelled flags. -/

structure ActData where
  id : Option Nat := none
  task_id : Option Nat := none
  title : Option String := none
  description : Option String := none
  date : Option Nat := none
  startTime : Option RawVal := none
  endTime : Option RawVal := none
  start_time : Option RawVal := none
  end_time : Option RawVal := none
  subtask_title : Option String := none
  subtasks : Option (List SubtaskInput) := none
  is_completed : Option Bool := none
  deriving DecidableEq, Repr

structure ConfRecord where
  action : Option String
  data : Option ActData
  confirmed : Option Bool
  cancelled : Option Bool
  deriving DecidableEq, Repr

structure ChatMsgRec where
  id : Nat
  session_id : Nat
  text : String
  is_user : Bool
  confirmation : Option ConfRecord
  deriving DecidableEq, Repr

structure AppState where
  sessions : SessionStore
  messages : List ChatMsgRec
  nextMsgId : Nat
  tasks : TaskStore
  deriving DecidableEq, Repr

/-- `ChatSessionModel.getMessageById` (part_008 260-271). -/
def getMessageById (msgs : List ChatMsgRec) (id : Nat) : Option ChatMsgRec :=
  msgs.find? (fun m => m.id = id)

/-- `ChatSessionModel.updateMessage` (part_008 236-257): replaces the
message's confirmation JSON wholesale. -/
def updateMessage (msgs : List ChatMsgRec) (id : Nat) (conf : ConfRecord) : List ChatMsgRec :=
  msgs.map (fun m => if m.id = id then { m with confirmation := some conf } else m)

/-- `ChatSessionModel.addMessage` (part_008 203-233) for an assistant
message (confirmation/tasks columns not claim-relevant here). -/
def addMessage (st : AppState) (sessionId : Nat) (text : String) : AppState :=
  { st with
    messages := st.messages ++
      [{ id := st.nextMsgId, session_id := sessionId, text := text, is_user := false,
         confirmation := none }]
    nextMsgId := st.nextMsgId + 1 }

/-- The confirmed-action executor (`confirmAction`, aiController.ts 457-509):
builds `dbData` (camelCase times win over snake_case), dispatches exactly one
storage mutation by action name, and falls through to a bare "Done." reply
with no mutation for any other action.  A `null` data payload makes the
destructuring throw.  Errors are `Except.error` (the caller catches them). -/
def aiConfirmAction (today : Nat) (userId : Nat) (tasks : TaskStore)
    (action : Option String) (data : Option ActData) : Except String (TaskStore × String) :=
  match data with
  | none => .error "cannot destructure null data"
  | some d =>
    let dbStart := d.startTime <|> d.start_time
    let dbEnd := d.endTime <|> d.end_time
    if action = some "create_task" then
      match TaskModel.create today tasks
        { user_id := userId, title := d.title, description := d.description,
          start_time := dbStart, end_time := dbEnd, date := d.date,
          is_completed := d.is_completed, subtasks := d.subtasks.getD [] } with
      | some (ts, _) => .ok (ts, "Created task")
      | none => .error "task INSERT rejected"
    else if action = some "update_task" then
      match d.id with
      | none => .error "Missing ID for update_task"
      | some id =>
        .ok (TaskModel.update tasks id
          { title := d.title, description := d.description, date := d.date,
            is_completed := d.is_completed, subtasks := d.subtasks }, "Updated task")
    else if action = some "delete_task" then
      match d.id with
      | none => .error "Missing ID for delete_task"
      | some id => .ok (TaskModel.softDelete tasks id, "Task deleted.")
    else if action = some "create_subtask" then
      match d.task_id with
      | none => .error "Missing parent task_id for create_subtask"
      | some tid =>
        .ok (TaskModel.createSubtask tasks tid
          { title := some (d.subtask_title.getD "Subtask") }, "Subtask created.")
    else
      .ok (tasks, "Done.")

inductive ConfirmOutcome where
  | badRequest
  | messageNotFound
  | unauthorized
  | cancelled
  | executed (reply : String)
  | executionFailed
  deriving DecidableEq, Repr

/-- The confirmation resolution endpoint (part_005 457-601).  The source's
order of operations: validate the request, load the message, resolve
action/data (explicit request fields win over the stored confirmation), WRITE
the confirmed/cancelled flags onto the message, and only then check that the
owning session belongs to the requesting user; a mismatch is a terminal 403.
`confirm = false` acknowledges the cancellation without touching the Task
Store; `confirm = true` runs the executor, whose failure is caught and turned
into an appended error message. -/
def confirmAction (today : Nat) (st : AppState) (userId : Nat)
    (messageId : Option Nat) (confirm : Option Bool)
    (action : Option String) (data : Option ActData) : ConfirmOutcome × AppState :=
  match messageId, confirm with
  | none, _ => (.badRequest, st)
  | some _, none => (.badRequest, st)
  | some mid, some conf =>
    match getMessageById st.messages mid with
    | none => (.messageNotFound, st)
    | some msg =>
      let resolvedAction := action <|> (msg.confirmation.bind (fun c => c.action))
      let resolvedData := data <|> (msg.confirmation.bind (fun c => c.data))
      let st1 := { st with messages :=
        (updateMessage st.messages mid
          ⟨resolvedAction, resolvedData, some conf, some (!conf)⟩) }
      match ChatSessionModel.findSession st.sessions msg.session_id with
      | none => (.unauthorized, st1)
      | some sess =>
        if sess.user_id ≠ userId then (.unauthorized, st1)
        else if conf = false then (.cancelled, st1)
        else
          match aiConfirmAction today userId st1.tasks resolvedAction resolvedData with
          | .ok (ts, reply) =>
            (.executed reply, addMessage { st1 with tasks := ts } msg.session_id reply)
          | .error _ =>
            (.executionFailed,
             addMessage st1 msg.session_id "Failed to execute the action. Please try again.")

/-! ## Theorems -/

lemma countBack_le (tasks : Nat → List Bool) (n : Nat) : countBack tasks n ≤ n + 1 := by
  induction n with
  | zero => unfold countBack; split <;> simp
  | succ n ih =>
    unfold countBack; split
    · omega
    · omega

lemma countBack_complete (tasks : Nat → List Bool) (n : Nat) :
    ∀ j, j < countBack tasks n → dayComplete tasks (n - j) = true := by
  induction n with
  | zero =>
    intro j hj
    unfold countBack at hj
    by_cases h : dayComplete tasks 0 = true
    · simp [h] at hj
      subst hj
      simpa using h
    · simp [h] at hj
  | succ n ih =>
    intro j hj
    unfold countBack at hj
    by_cases h : dayComplete tasks (n + 1) = true
    · simp [h] at hj
      match j with
      | 0 => simpa using h
      | k + 1 =>
        have hk : k < countBack tasks n := by omega
        simpa [Nat.succ_sub_succ] using ih k hk
    · simp [h] at hj

lemma countBack_stop (tasks : Nat → List Bool) (n : Nat) :
    countBack tasks n = n + 1 ∨ dayComplete tasks (n - countBack tasks n) = false := by
  induction n with
  | zero =>
    unfold countBack
    by_cases h : dayComplete tasks 0 = true
    · simp [h]
    · simp [h]
  | succ n ih =>
    unfold countBack
    by_cases h : dayComplete tasks (n + 1) = true
    · simp [h]
      rcases ih with h1 | h2
      · left; omega
      · right
        simpa [Nat.succ_sub_succ] using h2
    · simp [h]

/-- C1, counterexample.  A 3-day streak over days 1-3 (each with one
task), the middle day's sole task marked incomplete, current state
`⟨3, 3, some 3⟩`.  Running the recalculator for the middle day is a no-op —
the source only walks backward when the changed date IS the last-counted date
(User.ts 170-176) — so the result is NOT current streak 1 with last-counted
date 1 as the claim demands. -/
theorem streak_regression_middle_day_counterexample :
    adjustStreakAfterDate tasksMiddleRegressed ⟨3, 3, some 3⟩ 2 = ⟨3, 3, some 3⟩ ∧
    (adjustStreakAfterDate tasksMiddleRegressed ⟨3, 3, some 3⟩ 2).current_streak ≠ 1 ∧
    (adjustStreakAfterDate tasksMiddleRegressed ⟨3, 3, some 3⟩ 2).last_streak_date ≠ some 1 := by
  decide

/-- C1, amended.  When a date's tasks are not all complete AND that date was
the last-counted date, the recalculator walks backward day-by-day counting
consecutive fully-complete preceding days (every day within the count is fully
complete, and the walk stopped either below day 0 or at a day with zero tasks
or an incomplete task), sets the current streak to that count, the longest
streak to the max with its prior value, and the last-counted date to the day
before the regression point (null if the count is zero).  When the regressed
date was NOT the last-counted date (e.g. the middle day of a 3-day streak) the
recalculator leaves the user unchanged. -/
theorem streak_regression_amended (tasks : Nat → List Bool) (u : StreakState) (d : Nat)
    (h1 : (tasks d).isEmpty = false)
    (h2 : (tasks d).all (fun b => b) = false)
    (h3 : u.last_streak_date = some d) :
    (adjustStreakAfterDate tasks u d).current_streak = walkCount tasks d ∧
    (adjustStreakAfterDate tasks u d).longest_streak
      = max u.longest_streak (walkCount tasks d) ∧
    (adjustStreakAfterDate tasks u d).last_streak_date
      = (if walkCount tasks d = 0 then none else some (d - 1)) ∧
    (∀ i, 1 ≤ i → i ≤ walkCount tasks d → dayComplete tasks (d - i) = true) ∧
    (walkCount tasks d = d ∨ dayComplete tasks (d - (walkCount tasks d + 1)) = false) ∧
    (∀ u' : StreakState, u'.last_streak_date ≠ some d →
      adjustStreakAfterDate tasks u' d = u') := by
  refine ⟨?_, ?_, ?_, ?_, ?_, ?_⟩
  · simp [adjustStreakAfterDate, h1, h2, h3]
  · simp [adjustStreakAfterDate, h1, h2, h3]
  · simp [adjustStreakAfterDate, h1, h2, h3]
  · intro i hi1 hi2
    match d, hi2 with
    | 0, hi2 =>
      simp [walkCount] at hi2
      omega
    | n + 1, hi2 =>
      have : i - 1 < countBack tasks n := by
        simp [walkCount] at hi2
        omega
      have h := countBack_complete tasks n (i - 1) this
      have heq : n + 1 - i = n - (i - 1) := by omega
      rw [heq]
      exact h
  · match d with
    | 0 => left; rfl
    | n + 1 =>
      rcases countBack_stop tasks n with h | h
      · left; simpa [walkCount] using h
      · right
        have heq : n + 1 - (walkCount tasks (n + 1) + 1) = n - countBack tasks n := by
          simp [walkCount]
        rw [heq]
        exact h
  · intro u' hu'
    simp [adjustStreakAfterDate, h1, h2, hu']

/-- Witness for `streak_regression_amended`: day 1 fully complete, day 2's
sole task incomplete, last-counted date 2 — the walk finds exactly one
complete preceding day. -/
theorem streak_regression_amended_witness :
    ((tasksLastRegressed 2).isEmpty = false ∧
     (tasksLastRegressed 2).all (fun b => b) = false ∧
     (⟨2, 2, some 2⟩ : StreakState).last_streak_date = some 2) ∧
    (adjustStreakAfterDate tasksLastRegressed ⟨2, 2, some 2⟩ 2).current_streak
      = walkCount tasksLastRegressed 2 := by
  refine ⟨⟨by decide, by decide, by decide⟩, ?_⟩
  exact (streak_regression_amended tasksLastRegressed ⟨2, 2, some 2⟩ 2
    (by decide) (by decide) (by decide)).1

/-- C8.  Idempotence on an already-counted date: if the user's last-counted
date is `d` and every task on `d` is complete, the recalculator returns the
user unchanged (User.ts 133-139; a taskless day is likewise a no-op). -/
theorem streak_idempotent_on_counted_date (tasks : Nat → List Bool) (u : StreakState) (d : Nat)
    (h2 : (tasks d).all (fun b => b) = true)
    (h3 : u.last_streak_date = some d) :
    adjustStreakAfterDate tasks u d = u := by
  by_cases he : (tasks d).isEmpty
  · simp [adjustStreakAfterDate, he]
  · simp [adjustStreakAfterDate, he, h2, h3]

/-- Witness for `streak_idempotent_on_counted_date` at a concrete state. -/
theorem streak_idempotent_witness :
    ((tasksMiddleRegressed 3).all (fun b => b) = true ∧
     (⟨1, 3, some 3⟩ : StreakState).last_streak_date = some 3) ∧
    adjustStreakAfterDate tasksMiddleRegressed ⟨1, 3, some 3⟩ 3 = ⟨1, 3, some 3⟩ :=
  ⟨⟨by decide, by decide⟩,
   streak_idempotent_on_counted_date tasksMiddleRegressed ⟨1, 3, some 3⟩ 3
     (by decide) (by decide)⟩

/-- C9.  The invariant `current_streak ≤ longest_streak` is preserved by every
run of the recalculator: the no-op branches keep the state, and both mutating
branches set the longest streak to `max` of its prior value and the new
current streak (User.ts 150 and 204). -/
theorem streak_current_le_longest (tasks : Nat → List Bool) (u : StreakState) (d : Nat)
    (h : u.current_streak ≤ u.longest_streak) :
    (adjustStreakAfterDate tasks u d).current_streak
      ≤ (adjustStreakAfterDate tasks u d).longest_streak := by
  unfold adjustStreakAfterDate
  split
  · exact h
  · split
    · split
      · exact h
      · simp
    · split
      · exact h
      · simp

/-- Witness for `streak_current_le_longest`: a fresh user completing day 1. -/
theorem streak_current_le_longest_witness :
    ((⟨0, 0, none⟩ : StreakState).current_streak ≤ (⟨0, 0, none⟩ : StreakState).longest_streak) ∧
    (adjustStreakAfterDate tasksLastRegressed ⟨0, 0, none⟩ 1).current_streak
      ≤ (adjustStreakAfterDate tasksLastRegressed ⟨0, 0, none⟩ 1).longest_streak :=
  ⟨by decide, streak_current_le_longest tasksLastRegressed ⟨0, 0, none⟩ 1 (by decide)⟩

lemma validTime_parts (t : Hms) (h : t.validTime = true) :
    t.hh < 24 ∧ t.mm < 60 ∧ t.ss < 60 := by
  simp [Hms.validTime] at h
  exact ⟨h.1.1, h.1.2, h.2⟩

lemma normHms_of_valid (t : Hms) (h : t.validTime = true) : normHms t = t := by
  obtain ⟨h1, h2, h3⟩ := validTime_parts t h
  simp [normHms, Nat.div_eq_of_lt h3, Nat.div_eq_of_lt h2, Nat.mod_eq_of_lt h1,
    Nat.mod_eq_of_lt h2, Nat.mod_eq_of_lt h3]

lemma plusOneHour_of_valid (t : Hms) (h : t.validTime = true) (hlt : t.hh < 23) :
    plusOneHour t = ⟨t.hh + 1, t.mm, t.ss⟩ ∧
    (plusOneHour t).validTime = true ∧
    (plusOneHour t).toSec = t.toSec + 3600 := by
  obtain ⟨h1, h2, h3⟩ := validTime_parts t h
  have he : plusOneHour t = ⟨t.hh + 1, t.mm, t.ss⟩ := by
    simp [plusOneHour, normHms_of_valid t h, Nat.mod_eq_of_lt (show t.hh + 1 < 24 by omega)]
  refine ⟨he, ?_, ?_⟩
  · rw [he]
    simp only [Hms.validTime, Bool.and_eq_true, decide_eq_true_eq]
    omega
  · simp [he, Hms.toSec]
    ring

lemma minusOneHour_of_valid (t : Hms) (h : t.validTime = true) (hge : 1 ≤ t.hh) :
    minusOneHour t = ⟨t.hh - 1, t.mm, t.ss⟩ ∧
    (minusOneHour t).validTime = true ∧
    (minusOneHour t).toSec + 3600 = t.toSec := by
  obtain ⟨h1, h2, h3⟩ := validTime_parts t h
  have hmod : (t.hh + 23) % 24 = t.hh - 1 := by
    have : t.hh + 23 = (t.hh - 1) + 1 * 24 := by omega
    rw [this, Nat.add_mul_mod_self_right]
    exact Nat.mod_eq_of_lt (by omega)
  have he : minusOneHour t = ⟨t.hh - 1, t.mm, t.ss⟩ := by
    simp [minusOneHour, normHms_of_valid t h, hmod]
  refine ⟨he, ?_, ?_⟩
  · rw [he]
    simp only [Hms.validTime, Bool.and_eq_true, decide_eq_true_eq]
    omega
  · simp only [he, Hms.toSec]
    have hsub : (t.hh - 1) * 3600 + 3600 = t.hh * 3600 := by
      have hsucc : t.hh - 1 + 1 = t.hh := by omega
      calc (t.hh - 1) * 3600 + 3600 = (t.hh - 1 + 1) * 3600 := by ring
        _ = t.hh * 3600 := by rw [hsucc]
    omega

/-- C2, counterexample.  A create call whose only time input is a start time
of 23:30 is accepted: the one-hour default duration wraps past midnight and
the stored row has `start_time` 23:30:00 and `end_time` 00:30:00, so
`start_time < end_time` fails. -/
theorem task_create_interval_counterexample :
    TaskModel.create 5 ⟨[], 0⟩ { user_id := 7, start_time := some (.timeOnly ⟨23, 30, 0⟩) }
      = some (⟨[(0,
          { user_id := 7, title := none, description := none,
            start_time := ⟨23, 30, 0⟩, end_time := ⟨0, 30, 0⟩, date := 5,
            is_completed := false, is_deleted := false, subtasks := [] })], 1⟩, 0) ∧
    ¬ (Hms.toSec ⟨23, 30, 0⟩ < Hms.toSec ⟨0, 30, 0⟩) := by
  constructor
  · rfl
  · decide

lemma createTimes_none_none (today : Nat) (d : Option Nat) :
    createTimes today ⟨none, none, d⟩ = some ⟨⟨9, 0, 0⟩, ⟨10, 0, 0⟩, d.getD today⟩ := by
  rfl

lemma createTimes_start_only (today : Nat) (d0 : Option Nat) (v : RawVal) (t : Hms)
    (ht : extractTime v = some t) (hv : t.validTime = true) (hlt : t.hh < 23) :
    ∃ dd, createTimes today ⟨some v, none, d0⟩ = some ⟨t, plusOneHour t, dd⟩ := by
  obtain ⟨hp, hpv, _⟩ := plusOneHour_of_valid t hv hlt
  refine ⟨(match extractDate v, d0 with
    | some dd, none => some dd
    | _, _ => d0).getD today, ?_⟩
  simp [createTimes, normalizeTimes, ht, shiftOrNan, TimeStr.toDb, hv, hpv]

lemma createTimes_end_only (today : Nat) (d0 : Option Nat) (v : RawVal) (t : Hms)
    (ht : extractTime v = some t) (hv : t.validTime = true) (hge : 1 ≤ t.hh) :
    ∃ dd, createTimes today ⟨none, some v, d0⟩ = some ⟨minusOneHour t, t, dd⟩ := by
  obtain ⟨hm, hmv, _⟩ := minusOneHour_of_valid t hv hge
  refine ⟨(match extractDate v, d0 with
    | some dd, none => some dd
    | _, _ => d0).getD today, ?_⟩
  simp [createTimes, normalizeTimes, ht, shiftOrNan, TimeStr.toDb, hv, hmv]

/-- C2, amended.  For every accepted create call in the defaulting cases —
no time given, or a single valid time whose one-hour derivation does not wrap
past midnight (a start before 23:00, or an end at or after 01:00) — the stored
row satisfies `start_time < end_time`.  (A lone start time of 23:00 or later,
a lone end time before 01:00, or two explicitly reversed times are accepted
yet stored with `start_time ≥ end_time`, as the counterexample shows.) -/
theorem task_create_interval_amended (today : Nat) (st : TaskStore) (inp : CreateTaskInput)
    (st2 : TaskStore) (newId : Nat)
    (hc : TaskModel.create today st inp = some (st2, newId))
    (hcase :
      (inp.start_time = none ∧ inp.end_time = none) ∨
      (∃ v t, inp.start_time = some v ∧ extractTime v = some t ∧ t.validTime = true ∧
        t.hh < 23 ∧ inp.end_time = none) ∨
      (∃ v t, inp.end_time = some v ∧ extractTime v = some t ∧ t.validTime = true ∧
        1 ≤ t.hh ∧ inp.start_time = none)) :
    ∃ row : TaskRec, st2.rows = st.rows ++ [(newId, row)] ∧
      row.start_time.toSec < row.end_time.toSec := by
  rcases hcase with ⟨hs, he⟩ | ⟨v, t, hs, ht, hv, hlt, he⟩ | ⟨v, t, he, ht, hv, hge, hs⟩
  · rw [TaskModel.create, hs, he, createTimes_none_none] at hc
    simp only [Option.some_inj, Prod.mk.injEq] at hc
    obtain ⟨hst2, hid⟩ := hc
    subst hst2
    subst hid
    refine ⟨_, rfl, ?_⟩
    show Hms.toSec ⟨9, 0, 0⟩ < Hms.toSec ⟨10, 0, 0⟩
    decide
  · obtain ⟨dd, hct⟩ := createTimes_start_only today inp.date v t ht hv hlt
    rw [TaskModel.create, hs, he, hct] at hc
    simp only [Option.some_inj, Prod.mk.injEq] at hc
    obtain ⟨hst2, hid⟩ := hc
    subst hst2
    subst hid
    obtain ⟨_, _, hsec⟩ := plusOneHour_of_valid t hv hlt
    refine ⟨_, rfl, ?_⟩
    show t.toSec < (plusOneHour t).toSec
    omega
  · obtain ⟨dd, hct⟩ := createTimes_end_only today inp.date v t ht hv hge
    rw [TaskModel.create, he, hs, hct] at hc
    simp only [Option.some_inj, Prod.mk.injEq] at hc
    obtain ⟨hst2, hid⟩ := hc
    subst hst2
    subst hid
    obtain ⟨_, _, hsec⟩ := minusOneHour_of_valid t hv hge
    refine ⟨_, rfl, ?_⟩
    show (minusOneHour t).toSec < t.toSec
    omega

/-- Witness for `task_create_interval_amended`: a lone 09:00:00 start time. -/
theorem task_create_interval_amended_witness :
    TaskModel.create 3 ⟨[], 0⟩ { user_id := 1, start_time := some (.timeOnly ⟨9, 0, 0⟩) }
      = some (⟨[(0,
          { user_id := 1, title := none, description := none,
            start_time := ⟨9, 0, 0⟩, end_time := ⟨10, 0, 0⟩, date := 3,
            is_completed := false, is_deleted := false, subtasks := [] })], 1⟩, 0) ∧
    (∃ row : TaskRec,
      (⟨[(0,
          { user_id := 1, title := none, description := none,
            start_time := ⟨9, 0, 0⟩, end_time := ⟨10, 0, 0⟩, date := 3,
            is_completed := false, is_deleted := false, subtasks := [] })], 1⟩ : TaskStore).rows
        = (⟨[], 0⟩ : TaskStore).rows ++ [(0, row)] ∧
      row.start_time.toSec < row.end_time.toSec) := by
  constructor
  · rfl
  · exact task_create_interval_amended 3 ⟨[], 0⟩
      { user_id := 1, start_time := some (.timeOnly ⟨9, 0, 0⟩) } _ 0 rfl
      (Or.inr (Or.inl ⟨.timeOnly ⟨9, 0, 0⟩, ⟨9, 0, 0⟩, rfl, rfl, by decide, by decide, rfl⟩))

lemma find?_update (st : TaskStore) (id : Nat) (upd : TaskUpdate) :
    TaskStore.find? (TaskModel.update st id upd) id
      = (TaskStore.find? st id).map (fun t => applyUpd t upd) := by
  obtain ⟨rows, nid⟩ := st
  simp only [TaskStore.find?, TaskModel.update]
  induction rows with
  | nil => rfl
  | cons r rest ih =>
    by_cases h : r.1 = id
    · simp [List.find?_cons_of_pos, h]
    · simp only [List.map_cons]
      rw [List.find?_cons_of_neg _ (by simp [h]), List.find?_cons_of_neg _ (by simpa using h)]
      exact ih

/-- C10.  A `TaskModel.update` whose payload contains a subtasks list is a
wholesale replacement: the updated row's subtasks are exactly the provided
list (normalised by `createSubtask`'s defaulting), independently of whatever
subtasks — completion flags and ordering included — the task had before. -/
theorem task_update_subtasks_replacement (st : TaskStore) (id : Nat) (t : TaskRec)
    (upd : TaskUpdate) (l : List SubtaskInput)
    (hfind : TaskStore.find? st id = some t) (hsub : upd.subtasks = some l) :
    TaskStore.find? (TaskModel.update st id upd) id = some (applyUpd t upd) ∧
    (applyUpd t upd).subtasks = l.map normalizeSubtask ∧
    (∀ t' : TaskRec, (applyUpd t' upd).subtasks = l.map normalizeSubtask) := by
  refine ⟨?_, ?_, ?_⟩
  · rw [find?_update, hfind]
    rfl
  · simp [applyUpd, hsub]
  · intro t'
    simp [applyUpd, hsub]

/-- Concrete store for the `task_update_subtasks_replacement` witness: one
task that already has two subtasks with completion flags and ordering. -/
def witnessTaskStore : TaskStore :=
  ⟨[(0, { user_id := 1, title := some "clean room", description := none,
          start_time := ⟨9, 0, 0⟩, end_time := ⟨10, 0, 0⟩, date := 4,
          is_completed := false, is_deleted := false,
          subtasks := [⟨some "dust", true, 0⟩, ⟨some "vacuum", false, 1⟩] })], 1⟩

/-- Witness for `task_update_subtasks_replacement`: an update that "merely
adds" one subtask wipes both stored subtasks. -/
theorem task_update_subtasks_replacement_witness :
    (TaskStore.find? witnessTaskStore 0 = some
      { user_id := 1, title := some "clean room", description := none,
        start_time := ⟨9, 0, 0⟩, end_time := ⟨10, 0, 0⟩, date := 4,
        is_completed := false, is_deleted := false,
        subtasks := [⟨some "dust", true, 0⟩, ⟨some "vacuum", false, 1⟩] } ∧
     ({ subtasks := some [{ title := some "take out trash" }] } : TaskUpdate).subtasks
       = some [{ title := some "take out trash" }]) ∧
    (applyUpd
      { user_id := 1, title := some "clean room", description := none,
        start_time := ⟨9, 0, 0⟩, end_time := ⟨10, 0, 0⟩, date := 4,
        is_completed := false, is_deleted := false,
        subtasks := [⟨some "dust", true, 0⟩, ⟨some "vacuum", false, 1⟩] }
      { subtasks := some [{ title := some "take out trash" }] }).subtasks
      = [{ title := some "take out trash" }].map normalizeSubtask :=
  ⟨⟨by decide, by decide⟩,
   (task_update_subtasks_replacement witnessTaskStore 0 _ _ _
     (by decide) (by decide)).2.1⟩

/-! ### Session-store invariant (C7) -/

/-- Well-formedness of the session store: ids are bounded by the id counter
and distinct, and every user has at most one active session. -/
def SessionStore.Wf (st : SessionStore) : Prop :=
  (∀ s ∈ st.sessions, s.id < st.nextId) ∧
  (st.sessions.map (fun s => s.id)).Nodup ∧
  (∀ u, countActive st.sessions u ≤ 1)

lemma countActive_nil (u : Nat) : countActive [] u = 0 := rfl

lemma countActive_cons (s : ChatSession) (l : List ChatSession) (u : Nat) :
    countActive (s :: l) u
      = (if s.user_id = u ∧ s.is_active = true then 1 else 0) + countActive l u := by
  by_cases h1 : s.user_id = u
  · by_cases h2 : s.is_active = true
    · simp only [countActive, List.filter_cons]
      rw [if_pos (by simp [h1, h2]), if_pos ⟨h1, h2⟩]
      simp [Nat.add_comm]
    · simp only [countActive, List.filter_cons]
      rw [if_neg (by simp [h2]), if_neg (by simp [h2])]
      simp
  · simp only [countActive, List.filter_cons]
    rw [if_neg (by simp [h1]), if_neg (by simp [h1])]
    simp

lemma countActive_append (l1 l2 : List ChatSession) (u : Nat) :
    countActive (l1 ++ l2) u = countActive l1 u + countActive l2 u := by
  simp [countActive, List.filter_append]

lemma countActive_map_zero (l : List ChatSession) (g : ChatSession → ChatSession) (u : Nat)
    (h : ∀ s ∈ l, ¬ ((g s).user_id = u ∧ (g s).is_active = true)) :
    countActive (l.map g) u = 0 := by
  induction l with
  | nil => rfl
  | cons s rest ih =>
    rw [List.map_cons, countActive_cons, if_neg (h s (List.mem_cons_self s rest))]
    simpa using ih (fun t ht => h t (List.mem_cons_of_mem s ht))

lemma countActive_map_eq (l : List ChatSession) (g : ChatSession → ChatSession) (u : Nat)
    (h : ∀ s ∈ l, (((g s).user_id = u ∧ (g s).is_active = true)
      ↔ (s.user_id = u ∧ s.is_active = true))) :
    countActive (l.map g) u = countActive l u := by
  induction l with
  | nil => rfl
  | cons s rest ih =>
    rw [List.map_cons, countActive_cons, countActive_cons,
      ih (fun t ht => h t (List.mem_cons_of_mem s ht))]
    congr 1
    have hiff := h s (List.mem_cons_self s rest)
    by_cases hs : s.user_id = u ∧ s.is_active = true
    · rw [if_pos (hiff.mpr hs), if_pos hs]
    · rw [if_neg (fun hg => hs (hiff.mp hg)), if_neg hs]

lemma countActive_map_le_filter (l : List ChatSession) (g : ChatSession → ChatSession)
    (u : Nat) (q : ChatSession → Bool)
    (h : ∀ s ∈ l, (g s).user_id = u → (g s).is_active = true → q s = true) :
    countActive (l.map g) u ≤ (l.filter q).length := by
  induction l with
  | nil => simp [countActive]
  | cons s rest ih =>
    have ih2 := ih (fun t ht => h t (List.mem_cons_of_mem s ht))
    rw [List.map_cons, countActive_cons, List.filter_cons]
    by_cases hq : q s = true
    · rw [if_pos hq]
      simp only [List.length_cons]
      split
      · omega
      · omega
    · rw [if_neg hq, if_neg (fun hg => hq (h s (List.mem_cons_self s rest) hg.1 hg.2))]
      omega

lemma filter_id_length_le_one (l : List ChatSession)
    (hnd : (l.map (fun s => s.id)).Nodup) (id : Nat) :
    (l.filter (fun s => s.id = id)).length ≤ 1 := by
  induction l with
  | nil => simp
  | cons s rest ih =>
    simp only [List.map_cons, List.nodup_cons] at hnd
    by_cases h : s.id = id
    · have hrest : rest.filter (fun t => t.id = id) = [] := by
        rw [List.filter_eq_nil_iff]
        intro t ht htid
        simp only [decide_eq_true_eq] at htid
        apply hnd.1
        have hmem : t.id ∈ rest.map (fun s => s.id) := List.mem_map_of_mem _ ht
        rw [htid, ← h] at hmem
        exact hmem
      simp [List.filter_cons, h, hrest]
    · simpa [List.filter_cons, h] using ih hnd.2

lemma ids_map_of_preserve (l : List ChatSession) (g : ChatSession → ChatSession)
    (h : ∀ s, (g s).id = s.id) :
    (l.map g).map (fun s => s.id) = l.map (fun s => s.id) := by
  rw [List.map_map]
  exact List.map_congr_left (fun s _ => h s)

lemma deactRow_id (u : Nat) (s : ChatSession) : (deactRow u s).id = s.id := by
  unfold deactRow
  split <;> rfl

lemma deactRow_user (u : Nat) (s : ChatSession) : (deactRow u s).user_id = s.user_id := by
  unfold deactRow
  split <;> rfl

lemma setRow_id (id : Nat) (upd : SessionUpdate) (s : ChatSession) :
    (setRow id upd s).id = s.id := by
  unfold setRow
  split <;> rfl

lemma setRow_user (id : Nat) (upd : SessionUpdate) (s : ChatSession) :
    (setRow id upd s).user_id = s.user_id := by
  unfold setRow
  split <;> rfl

lemma countActive_deactivateAll_self (l : List ChatSession) (u : Nat) :
    countActive (l.map (deactRow u)) u = 0 :=
  countActive_map_zero l _ u (fun s _ => by
    by_cases hs : s.user_id = u
    · simp [deactRow, hs]
    · simp [deactRow, hs])

lemma countActive_deactivateAll_other (l : List ChatSession) (u w : Nat) (hw : w ≠ u) :
    countActive (l.map (deactRow u)) w = countActive l w :=
  countActive_map_eq l _ w (fun s _ => by
    by_cases hs : s.user_id = u
    · simp [deactRow, hs, Ne.symm hw]
    · simp [deactRow, hs])

lemma wf_create (st : SessionStore) (h : st.Wf) (u : Nat) (title : Option String) :
    ((ChatSessionModel.create st u title).1).Wf := by
  obtain ⟨hb, hnd, hcnt⟩ := h
  refine ⟨?_, ?_, ?_⟩
  · intro s hs
    show s.id < st.nextId + 1
    simp only [ChatSessionModel.create, deactivateAll, List.mem_append, List.mem_map,
      List.mem_singleton] at hs
    rcases hs with ⟨s0, hs0, rfl⟩ | rfl
    · have hlt := hb s0 hs0
      have hid : (deactRow u s0).id = s0.id := deactRow_id u s0
      omega
    · show st.nextId < st.nextId + 1
      omega
  · show ((st.sessions.map (deactRow u)
      ++ [newSession st.nextId u title]).map (fun s => s.id)).Nodup
    rw [List.map_append, ids_map_of_preserve _ _ (deactRow_id u)]
    simp only [List.map_cons, List.map_nil]
    show ((st.sessions.map (fun s => s.id)) ++ [st.nextId]).Nodup
    rw [List.nodup_append]
    refine ⟨hnd, List.nodup_singleton _, ?_⟩
    intro x hx hx2
    simp only [List.mem_singleton] at hx2
    obtain ⟨s0, hs0, hid⟩ := List.mem_map.mp hx
    have hid2 : s0.id = x := hid
    have := hb s0 hs0
    omega
  · intro w
    show countActive (st.sessions.map (deactRow u) ++ [newSession st.nextId u title]) w ≤ 1
    rw [countActive_append]
    by_cases hw : w = u
    · subst hw
      rw [countActive_deactivateAll_self, countActive_cons, countActive_nil,
        if_pos ⟨rfl, rfl⟩]
    · rw [countActive_deactivateAll_other _ _ _ hw, countActive_cons, countActive_nil,
        if_neg (fun hcond => hw (hcond.1.symm))]
      have := hcnt w
      omega

lemma wf_update (st : SessionStore) (h : st.Wf) (id : Nat) (upd : SessionUpdate) :
    (ChatSessionModel.update st id upd).Wf := by
  obtain ⟨hb, hnd, hcnt⟩ := h
  rw [ChatSessionModel.update]
  cases hfind : ChatSessionModel.findSession st id with
  | none => exact ⟨hb, hnd, hcnt⟩
  | some target =>
    have htmem : target ∈ st.sessions := List.mem_of_find?_eq_some hfind
    have htid : target.id = id := by simpa using List.find?_some hfind
    have huniq : ∀ s ∈ st.sessions, s.id = id → s = target := fun s hs hsid =>
      List.inj_on_of_nodup_map hnd hs htmem (hsid.trans htid.symm)
    show (if upd.is_active = some true then
        { st with sessions := ((deactivateAll st target.user_id).sessions).map (setRow id upd) }
      else { st with sessions := st.sessions.map (setRow id upd) }).Wf
    by_cases hact : upd.is_active = some true
    · rw [if_pos hact]
      have hndd : ((st.sessions.map (deactRow target.user_id)).map
          (fun s => s.id)).Nodup := by
        rw [ids_map_of_preserve _ _ (deactRow_id target.user_id)]
        exact hnd
      refine ⟨?_, ?_, ?_⟩
      · intro s hs
        show s.id < st.nextId
        simp only [deactivateAll, List.mem_map] at hs
        obtain ⟨s1, ⟨s0, hs0, rfl⟩, rfl⟩ := hs
        rw [setRow_id, deactRow_id]
        exact hb s0 hs0
      · show (((st.sessions.map (deactRow target.user_id)).map (setRow id upd)).map
          (fun s => s.id)).Nodup
        rw [ids_map_of_preserve _ _ (setRow_id id upd),
          ids_map_of_preserve _ _ (deactRow_id target.user_id)]
        exact hnd
      · intro w
        show countActive ((st.sessions.map (deactRow target.user_id)).map (setRow id upd)) w ≤ 1
        by_cases hw : w = target.user_id
        · subst hw
          calc countActive ((st.sessions.map (deactRow target.user_id)).map (setRow id upd))
                target.user_id
              ≤ ((st.sessions.map (deactRow target.user_id)).filter
                  (fun s => s.id = id)).length := by
                apply countActive_map_le_filter
                intro s hs hu ha
                by_cases h2 : s.id = id
                · simpa using h2
                · exfalso
                  obtain ⟨s0, hs0, rfl⟩ := List.mem_map.mp hs
                  rw [deactRow_id] at h2
                  rw [setRow, if_neg (by rw [deactRow_id]; exact h2)] at hu ha
                  by_cases h1 : s0.user_id = target.user_id
                  · rw [deactRow, if_pos h1] at ha
                    simp at ha
                  · rw [deactRow_user] at hu
                    rw [deactRow, if_neg h1] at ha
                    exact h1 hu
            _ ≤ 1 := filter_id_length_le_one _ hndd id
        · calc countActive ((st.sessions.map (deactRow target.user_id)).map (setRow id upd)) w
              ≤ ((st.sessions.map (deactRow target.user_id)).filter
                  (fun s => s.user_id = w && s.is_active)).length := by
                apply countActive_map_le_filter
                intro s hs hu ha
                obtain ⟨s0, hs0, rfl⟩ := List.mem_map.mp hs
                by_cases h2 : s0.id = id
                · exfalso
                  have : s0 = target := huniq s0 hs0 h2
                  rw [setRow_user, deactRow_user] at hu
                  exact hw (by rw [← hu, this])
                · rw [setRow, if_neg (by rw [deactRow_id]; exact h2)] at hu ha
                  rw [deactRow_user] at hu
                  by_cases h1 : s0.user_id = target.user_id
                  · rw [deactRow, if_pos h1] at ha
                    simp at ha
                  · rw [deactRow, if_neg h1] at ha
                    rw [deactRow_user, deactRow]
                    rw [if_neg h1]
                    simp [hu, ha]
            _ = countActive (st.sessions.map (deactRow target.user_id)) w := rfl
            _ = countActive st.sessions w := countActive_deactivateAll_other _ _ _ hw
            _ ≤ 1 := hcnt w
    · rw [if_neg hact]
      refine ⟨?_, ?_, ?_⟩
      · intro s hs
        show s.id < st.nextId
        obtain ⟨s0, hs0, rfl⟩ := List.mem_map.mp hs
        rw [setRow_id]
        exact hb s0 hs0
      · show ((st.sessions.map (setRow id upd)).map (fun s => s.id)).Nodup
        rw [ids_map_of_preserve _ _ (setRow_id id upd)]
        exact hnd
      · intro w
        calc countActive (st.sessions.map (setRow id upd)) w
            ≤ (st.sessions.filter (fun s => s.user_id = w && s.is_active)).length := by
              apply countActive_map_le_filter
              intro s hs hu ha
              rw [setRow_user] at hu
              have hia : s.is_active = true := by
                by_cases h2 : s.id = id
                · rw [setRow, if_pos h2] at ha
                  simp only at ha
                  cases hoa : upd.is_active with
                  | none => simpa [hoa] using ha
                  | some b =>
                    cases b with
                    | false => simp [hoa] at ha
                    | true => exact absurd hoa hact
                · rw [setRow, if_neg h2] at ha
                  exact ha
              simp [hu, hia]
          _ = countActive st.sessions w := rfl
          _ ≤ 1 := hcnt w

lemma wf_apply (st : SessionStore) (h : st.Wf) (op : SessionOp) :
    (applySessionOp st op).Wf := by
  cases op with
  | create u t => exact wf_create st h u t
  | update id upd => exact wf_update st h id upd

lemma wf_run (st : SessionStore) (h : st.Wf) (ops : List SessionOp) :
    (runSessionOps st ops).Wf := by
  induction ops generalizing st with
  | nil => exact h
  | cons op rest ih => exact ih _ (wf_apply st h op)

/-- C7.  After any sequence of chat-session create/update (activate)
operations starting from an empty store, every user has at most one session
with `is_active = true`: creation and activation both first deactivate all of
the user's other sessions (part_008 103-106 and 142-155). -/
theorem single_active_session (ops : List SessionOp) (u : Nat) :
    countActive (runSessionOps emptySessions ops).sessions u ≤ 1 :=
  (wf_run emptySessions
    ⟨fun s hs => by simp [emptySessions] at hs,
     by simp [emptySessions],
     fun w => by simp [emptySessions, countActive_nil]⟩ ops).2.2 u

/-! ### Agent-loop theorems (C3, C6) -/

lemma processRoundAux_results (acc : RoundOut) (calls : List ToolCall) :
    (processRoundAux acc calls).results = acc.results ++ calls.map execTool := by
  induction calls generalizing acc with
  | nil => simp [processRoundAux]
  | cons c rest ih =>
    rw [processRoundAux, ih]
    simp

lemma processRound_results (calls : List ToolCall) :
    (processRound calls).results = calls.map execTool := by
  simpa using processRoundAux_results ⟨[], none⟩ calls

lemma processRoundAux_append (acc : RoundOut) (l1 l2 : List ToolCall) :
    processRoundAux acc (l1 ++ l2) = processRoundAux (processRoundAux acc l1) l2 := by
  induction l1 generalizing acc with
  | nil => rfl
  | cons c rest ih =>
    rw [List.cons_append, processRoundAux, processRoundAux, ih]

lemma processRoundAux_proposal_nopropose (acc : RoundOut) (calls : List ToolCall)
    (h : ∀ a, ToolCall.propose_action a ∉ calls) :
    (processRoundAux acc calls).proposal = acc.proposal := by
  induction calls generalizing acc with
  | nil => rfl
  | cons c rest ih =>
    rw [processRoundAux]
    have hrest : ∀ a, ToolCall.propose_action a ∉ rest :=
      fun a ha => h a (List.mem_cons_of_mem c ha)
    rw [ih _ hrest]
    cases c with
    | get_tasks a => rfl
    | propose_action a => exact absurd (List.mem_cons_self _ _) (h a)
    | unknownTool n a => rfl


lemma processRound_proposal_nopropose (calls : List ToolCall)
    (h : ∀ a, ToolCall.propose_action a ∉ calls) :
    (processRound calls).proposal = none :=
  processRoundAux_proposal_nopropose ⟨[], none⟩ calls h

/-- C3, counterexample.  A round with two `propose_action` calls separated by
a `get_tasks` call: the loop executes all three calls (three tool results, not
one) and the captured proposal is the LAST `propose_action`'s arguments, not
the first's — later tool calls in the round are executed, not ignored. -/
theorem agent_loop_proposal_counterexample :
    processRound [.propose_action 1, .get_tasks 7, .propose_action 2]
      = ⟨[.proposed 1, .searched 7, .proposed 2], some 2⟩ ∧
    (processRound [.propose_action 1, .get_tasks 7, .propose_action 2]).proposal ≠ some 1 ∧
    (processRound [.propose_action 1, .get_tasks 7, .propose_action 2]).results.length ≠ 1 := by
  decide

/-- C3, amended.  In a round whose tool calls contain a `propose_action`,
EVERY call of the round is executed in order (the results are the image of the
whole round under tool dispatch), the proposal captured is the arguments of
the LAST `propose_action` of the round, and the step ends the loop in the
confirmation-pending state — so at most one write proposal is honoured per
turn, but later calls in the round are not ignored. -/
theorem agent_loop_proposal_amended (l1 l2 : List ToolCall) (a : Nat)
    (h : ∀ b, ToolCall.propose_action b ∉ l2) :
    (processRound (l1 ++ ToolCall.propose_action a :: l2)).proposal = some a ∧
    (processRound (l1 ++ ToolCall.propose_action a :: l2)).results
      = (l1 ++ ToolCall.propose_action a :: l2).map execTool ∧
    chatStep ⟨none, l1 ++ ToolCall.propose_action a :: l2⟩ = some (.confirmation a) := by
  have hprop : (processRound (l1 ++ ToolCall.propose_action a :: l2)).proposal = some a := by
    rw [processRound, processRoundAux_append, processRoundAux,
      processRoundAux_proposal_nopropose _ _ h]
    rfl
  refine ⟨hprop, processRound_results _, ?_⟩
  have hne : (l1 ++ ToolCall.propose_action a :: l2).isEmpty = false := by
    cases l1 <;> rfl
  rw [chatStep]
  simp only [hne, Bool.false_eq_true, if_false, hprop]

/-- Witness for `agent_loop_proposal_amended` at a concrete round. -/
theorem agent_loop_proposal_amended_witness :
    (∀ b, ToolCall.propose_action b ∉ [ToolCall.get_tasks 9]) ∧
    (processRound ([.get_tasks 5] ++ ToolCall.propose_action 4 :: [.get_tasks 9])).proposal
      = some 4 ∧
    chatStep ⟨none, [.get_tasks 5] ++ ToolCall.propose_action 4 :: [.get_tasks 9]⟩
      = some (.confirmation 4) := by
  have h : ∀ b, ToolCall.propose_action b ∉ [ToolCall.get_tasks 9] := by
    intro b hb
    simp at hb
  have ham := agent_loop_proposal_amended [.get_tasks 5] [.get_tasks 9] 4 h
  exact ⟨h, ham.1, ham.2.2⟩

lemma chatLoopAux_iters_le (respond : Nat → ModelResponse) (iter r : Nat) :
    (chatLoopAux respond iter r).2 ≤ iter + r := by
  induction r generalizing iter with
  | zero => simp [chatLoopAux]
  | succ r ih =>
    rw [chatLoopAux]
    cases chatStep (respond iter) with
    | some outcome => simp
    | none =>
      have := ih (iter + 1)
      simp only []
      omega

lemma chatLoopAux_exhaust (respond : Nat → ModelResponse) (iter r : Nat)
    (h : ∀ i, iter ≤ i → i < iter + r → chatStep (respond i) = none) :
    chatLoopAux respond iter r = (.maxIterations fallbackText "max_iterations", iter + r) := by
  induction r generalizing iter with
  | zero => simp [chatLoopAux]
  | succ r ih =>
    rw [chatLoopAux, h iter (Nat.le_refl iter) (by omega)]
    rw [ih (iter + 1) (fun i h1 h2 => h i (by omega) (by omega))]
    have : iter + 1 + r = iter + (r + 1) := by omega
    rw [this]

/-- C6.  The agent loop makes at most `MAX_ITERATIONS = 10` model calls, for
EVERY possible sequence of model responses; and when the model requests tool
calls in all ten rounds without ever issuing a `propose_action` (hence no text
answer and no proposal), the loop ends with the fixed fallback message flagged
`"max_iterations"` after exactly ten calls, rather than looping on. -/
theorem agent_loop_bounded_fallback (respond : Nat → ModelResponse) :
    (chat respond).2 ≤ MAX_ITERATIONS ∧
    ((∀ i, i < MAX_ITERATIONS → (respond i).tool_calls ≠ [] ∧
        (∀ a, ToolCall.propose_action a ∉ (respond i).tool_calls)) →
      chat respond = (.maxIterations fallbackText "max_iterations", MAX_ITERATIONS)) := by
  constructor
  · simpa using chatLoopAux_iters_le respond 0 MAX_ITERATIONS
  · intro h
    have hstep : ∀ i, 0 ≤ i → i < 0 + MAX_ITERATIONS → chatStep (respond i) = none := by
      intro i _ hi
      obtain ⟨hne, hnp⟩ := h i (by simpa using hi)
      have hie : (respond i).tool_calls.isEmpty = false := by
        simpa [List.isEmpty_iff] using hne
      rw [chatStep]
      simp only [hie, Bool.false_eq_true, if_false,
        processRound_proposal_nopropose _ hnp]
    simpa using chatLoopAux_exhaust respond 0 MAX_ITERATIONS hstep

/-- The C6 witness model: requests one `get_tasks` call in every round and
never answers in text or proposes. -/
def alwaysToolCalls : Nat → ModelResponse := fun _ => ⟨none, [.get_tasks 0]⟩

/-- Witness for `agent_loop_bounded_fallback`. -/
theorem agent_loop_bounded_fallback_witness :
    (∀ i, i < MAX_ITERATIONS → (alwaysToolCalls i).tool_calls ≠ [] ∧
      (∀ a, ToolCall.propose_action a ∉ (alwaysToolCalls i).tool_calls)) ∧
    chat alwaysToolCalls = (.maxIterations fallbackText "max_iterations", MAX_ITERATIONS) := by
  have h : ∀ i, i < MAX_ITERATIONS → (alwaysToolCalls i).tool_calls ≠ [] ∧
      (∀ a, ToolCall.propose_action a ∉ (alwaysToolCalls i).tool_calls) := by
    intro i _
    constructor
    · simp [alwaysToolCalls]
    · intro a hb
      simp [alwaysToolCalls] at hb
  exact ⟨h, (agent_loop_bounded_fallback alwaysToolCalls).2 h⟩

/-! ### Confirmation-resolution theorems (C4, C5) -/

/-- A task row used by the concrete confirmation states. -/
def confTask : TaskRec :=
  { user_id := 2, title := some "dentist", description := none,
    start_time := ⟨9, 0, 0⟩, end_time := ⟨10, 0, 0⟩, date := 3,
    is_completed := false, is_deleted := false, subtasks := [] }

/-- The stored confirmation of the concrete states: a pending delete proposal
with unset confirmed/cancelled flags. -/
def pendingDelete : ConfRecord := ⟨some "delete_task", some { id := some 0 }, none, none⟩

/-- Message 5 carrying the pending proposal, attached to the given session. -/
def confMsg (sid : Nat) : ChatMsgRec :=
  { id := 5, session_id := sid, text := "Please confirm", is_user := false,
    confirmation := some pendingDelete }

/-- Concrete state for the C4 counterexample: session 1 belongs to user 2; the
stored message 5 holds a pending delete proposal.  User 1 (not the owner)
calls the confirmation endpoint. -/
def mismatchState : AppState :=
  { sessions := ⟨[⟨1, 2, "New Chat", true⟩], 2⟩
    messages := [confMsg 1]
    nextMsgId := 6
    tasks := ⟨[(0, confTask)], 1⟩ }

/-- C4, counterexample.  Resolving another user's message fails with the
authorization error and leaves the Task Store untouched — but the message's
confirmation flags HAVE been written (part_005 511-516 runs `updateMessage`
before the ownership check of part_005 518-524), so "no state is mutated" is
false: the messages table differs from the initial state. -/
theorem confirm_ownership_counterexample :
    (confirmAction 0 mismatchState 1 (some 5) (some true) none none).1
      = .unauthorized ∧
    ((confirmAction 0 mismatchState 1 (some 5) (some true) none none).2).tasks
      = mismatchState.tasks ∧
    ((confirmAction 0 mismatchState 1 (some 5) (some true) none none).2).messages
      ≠ mismatchState.messages := by
  decide

/-- C4, amended.  When the session owning the identified message does not
belong to the requesting user (or no longer exists), the request terminates
with the authorization failure BEFORE the executor runs, so the Task Store and
the session store are untouched; the message's confirmation flags, however,
have already been rewritten by then. -/
theorem confirm_ownership_amended (today : Nat) (st : AppState) (uid : Nat)
    (mid : Nat) (conf : Bool) (action : Option String) (data : Option ActData)
    (msg : ChatMsgRec) (hmsg : getMessageById st.messages mid = some msg)
    (hown : ∀ sess, ChatSessionModel.findSession st.sessions msg.session_id = some sess →
      sess.user_id ≠ uid) :
    (confirmAction today st uid (some mid) (some conf) action data).1 = .unauthorized ∧
    ((confirmAction today st uid (some mid) (some conf) action data).2).tasks = st.tasks ∧
    ((confirmAction today st uid (some mid) (some conf) action data).2).sessions
      = st.sessions ∧
    ((confirmAction today st uid (some mid) (some conf) action data).2).messages
      = updateMessage st.messages mid
          ⟨action <|> (msg.confirmation.bind (fun c => c.action)),
           data <|> (msg.confirmation.bind (fun c => c.data)),
           some conf, some (!conf)⟩ := by
  simp only [confirmAction, hmsg]
  cases hs : ChatSessionModel.findSession st.sessions msg.session_id with
  | none => exact ⟨rfl, rfl, rfl, rfl⟩
  | some sess =>
    simp only []
    rw [if_pos (hown sess hs)]
    exact ⟨rfl, rfl, rfl, rfl⟩

/-- State for the `confirm_ownership_amended` witness: the message's owning
session is absent from the session store. -/
def orphanState : AppState :=
  { sessions := ⟨[], 0⟩
    messages := [confMsg 9]
    nextMsgId := 6
    tasks := ⟨[(0, confTask)], 1⟩ }

/-- Witness for `confirm_ownership_amended`. -/
theorem confirm_ownership_amended_witness :
    getMessageById orphanState.messages 5 = some (confMsg 9) ∧
    (confirmAction 0 orphanState 1 (some 5) (some true) none none).1 = .unauthorized ∧
    ((confirmAction 0 orphanState 1 (some 5) (some true) none none).2).tasks
      = orphanState.tasks := by
  have hmsg : getMessageById orphanState.messages 5 = some (confMsg 9) := by rfl
  have h := confirm_ownership_amended 0 orphanState 1 5 true none none _ hmsg
    (by
      intro sess hs
      simp [orphanState, ChatSessionModel.findSession] at hs)
  exact ⟨hmsg, h.1, h.2.1⟩

/-- C5.  Resolving any previously recorded proposal with `confirm = false`
never mutates the Task Store — on every path, including the error paths, the
tasks are unchanged — and on the success path the proposal is marked cancelled
(`confirmed = false`, `cancelled = true` written onto the message) with the
cancellation acknowledged. -/
theorem cancel_never_mutates_tasks (today : Nat) (st : AppState) (uid : Nat)
    (mid : Option Nat) (action : Option String) (data : Option ActData) :
    ((confirmAction today st uid mid (some false) action data).2).tasks = st.tasks ∧
    (∀ m msg sess, mid = some m →
      getMessageById st.messages m = some msg →
      ChatSessionModel.findSession st.sessions msg.session_id = some sess →
      sess.user_id = uid →
      (confirmAction today st uid mid (some false) action data).1 = .cancelled ∧
      ((confirmAction today st uid mid (some false) action data).2).messages
        = updateMessage st.messages m
            ⟨action <|> (msg.confirmation.bind (fun c => c.action)),
             data <|> (msg.confirmation.bind (fun c => c.data)),
             some false, some true⟩) := by
  constructor
  · cases mid with
    | none => rfl
    | some m =>
      simp only [confirmAction]
      cases hm : getMessageById st.messages m with
      | none => rfl
      | some msg =>
        simp only []
        cases hs : ChatSessionModel.findSession st.sessions msg.session_id with
        | none => rfl
        | some sess =>
          simp only []
          by_cases hu : sess.user_id ≠ uid
          · rw [if_pos hu]
          · rw [if_neg hu]
            rw [if_pos (by trivial)]
  · intro m msg sess hmid hmsg hs hu
    subst hmid
    simp only [confirmAction, hmsg]
    simp only [hs]
    rw [if_neg (by simp [hu])]
    rw [if_pos (by trivial)]
    exact ⟨rfl, rfl⟩

/-- Concrete state for the `cancel_never_mutates_tasks` witness: user 2 owns
session 1 and cancels their own pending delete proposal. -/
def cancelState : AppState := mismatchState

/-- Witness for `cancel_never_mutates_tasks`: the owner (user 2) cancels;
tasks are untouched, the message is marked cancelled. -/
theorem cancel_never_mutates_tasks_witness :
    ((confirmAction 0 cancelState 2 (some 5) (some false) none none).2).tasks
      = cancelState.tasks ∧
    ((some 5 : Option Nat) = some 5 ∧
     getMessageById cancelState.messages 5 = some (confMsg 1) ∧
     ChatSessionModel.findSession cancelState.sessions 1 = some ⟨1, 2, "New Chat", true⟩ ∧
     (⟨1, 2, "New Chat", true⟩ : ChatSession).user_id = 2) ∧
    (confirmAction 0 cancelState 2 (some 5) (some false) none none).1 = .cancelled := by
  have h := cancel_never_mutates_tasks 0 cancelState 2 (some 5) none none
  refine ⟨h.1, ⟨rfl, by rfl, by rfl, rfl⟩, ?_⟩
  exact (h.2 5 (confMsg 1) ⟨1, 2, "New Chat", true⟩ rfl (by rfl) (by rfl) rfl).1

end Grounded
